import Mathlib

/-!
# simavr `run_avr.c`: the run loop, the HEX chunk loop and the argument loop

A shallow embedding of `main` in `src/simavr/sim/run_avr.c`:

* the simulation loop (lines 241-264) and the infinite-loop note of the
  vitals dump (lines 274-279);
* the loop over the chunks of an Intel-HEX file (lines 177-190);
* the loop over the command line (lines 111-199).

The collaborators whose code is in other files (`avr_run`, `read_ihex_chunks`,
`elf_read_firmware`, `atoi`, `atoll`) are parameters of the definitions.
-/

namespace RunAvr

/-! ## The simulation loop -/

/-- Modelled from the spec: the values of the CPU state enumeration, whose
declaration (`sim_avr.h`) is not part of this file. `run_avr.c` names
`cpu_Stopped`, `cpu_Done` and `cpu_Crashed`; the spec gives the step result as
one of Running, Done, Crashed. -/
inductive cpu_state where
  | cpu_Stopped
  | cpu_Running
  | cpu_Done
  | cpu_Crashed
  deriving DecidableEq

open cpu_state

/-- Modelled from the spec: the declaration of `avr_t` (`sim_avr.h`) is not part
of this file. The fields are the ones the loop reads, which the spec lists as
exposed by the CPU engine: the program counter `avr->pc`, the cycle count
`avr->cycle` and the interrupt-enable flag `avr->sreg[S_I]`. Everything else of
the machine is `core`. -/
structure avr_t (κ : Type) where
  pc : Nat
  cycle : Nat
  sreg_I : Nat
  core : κ
  deriving DecidableEq

/-- The locals `max_cycles`, `max_instructions` (unsigned long long, 0 means
no limit) and `exit_on_infinite_loop` (a C int used as a truth value). -/
structure run_limits where
  max_cycles : Nat
  max_instructions : Nat
  exit_on_infinite_loop : Nat
  deriving DecidableEq

/-- The state carried from one iteration of the loop to the next: the machine,
`instruction_count` and `found_infinite_loop`. -/
structure loop_vars (κ : Type) where
  avr : avr_t κ
  instruction_count : Nat
  found_infinite_loop : Nat
  deriving DecidableEq

/-- Line 249: `exit_on_infinite_loop && old_pc == avr->pc && !avr->sreg[S_I]`.
`old_pc` is the value `avr->pc` had before the step, line 244. -/
def infinite_loop_rule {κ : Type} (lim : run_limits) (old_pc : Nat) (avr : avr_t κ) : Prop :=
  lim.exit_on_infinite_loop ≠ 0 ∧ old_pc = avr.pc ∧ avr.sreg_I = 0

instance {κ : Type} (lim : run_limits) (old_pc : Nat) (avr : avr_t κ) :
    Decidable (infinite_loop_rule lim old_pc avr) := by
  unfold infinite_loop_rule; infer_instance

/-- Line 254: `max_cycles && avr->cycle >= max_cycles`. -/
def cycles_reached {κ : Type} (lim : run_limits) (avr : avr_t κ) : Prop :=
  lim.max_cycles ≠ 0 ∧ lim.max_cycles ≤ avr.cycle

instance {κ : Type} (lim : run_limits) (avr : avr_t κ) : Decidable (cycles_reached lim avr) := by
  unfold cycles_reached; infer_instance

/-- Line 258: `max_instructions && instruction_count >= max_instructions`. -/
def instructions_reached (lim : run_limits) (instruction_count : Nat) : Prop :=
  lim.max_instructions ≠ 0 ∧ lim.max_instructions ≤ instruction_count

instance (lim : run_limits) (n : Nat) : Decidable (instructions_reached lim n) := by
  unfold instructions_reached; infer_instance

/-- One iteration of the `for (;;)` loop, lines 244-260: the value of `state`
when the loop tests it on line 262, and the loop variables after the
iteration. `instruction_count` is an unsigned 64-bit counter. -/
def loop_body {κ : Type} (lim : run_limits) (avr_run : avr_t κ → cpu_state × avr_t κ)
    (v : loop_vars κ) : cpu_state × loop_vars κ :=
  let old_pc := v.avr.pc
  let r := avr_run v.avr
  let state := r.1
  let avr := r.2
  let instruction_count := (v.instruction_count + 1) % 2 ^ 64
  let hit := infinite_loop_rule lim old_pc avr
  let found_infinite_loop := if hit then 1 else v.found_infinite_loop
  let state := if hit then cpu_Done else state
  let state := if cycles_reached lim avr then cpu_Done else state
  let state := if instructions_reached lim instruction_count then cpu_Done else state
  (state, ⟨avr, instruction_count, found_infinite_loop⟩)

/-- Line 262: `state == cpu_Done || state == cpu_Crashed`. -/
def loop_breaks (state : cpu_state) : Prop :=
  state = cpu_Done ∨ state = cpu_Crashed

instance (state : cpu_state) : Decidable (loop_breaks state) := by
  unfold loop_breaks; infer_instance

/-- What the loop leaves behind when it breaks: the last value of `state`, the
loop variables, and `steps`, the number of times `avr_run` was called. -/
structure run_result (κ : Type) where
  state : cpu_state
  vars : loop_vars κ
  steps : Nat
  deriving DecidableEq

/-- The `for (;;)` loop with a bound `fuel` on the number of iterations; `none`
when the loop has not reached its `break` within `fuel` iterations. `n` counts
the iterations made so far. -/
def run_loop_from {κ : Type} (lim : run_limits) (avr_run : avr_t κ → cpu_state × avr_t κ) :
    Nat → Nat → loop_vars κ → Option (run_result κ)
  | 0, _, _ => none
  | fuel + 1, n, v =>
    let r := loop_body lim avr_run v
    if loop_breaks r.1 then some ⟨r.1, r.2, n + 1⟩
    else run_loop_from lim avr_run fuel (n + 1) r.2

/-- Lines 241-242: `instruction_count = 0` and `found_infinite_loop = 0`. -/
def loop_init {κ : Type} (avr : avr_t κ) : loop_vars κ :=
  ⟨avr, 0, 0⟩

/-- Lines 241-264. -/
def run_loop {κ : Type} (lim : run_limits) (avr_run : avr_t κ → cpu_state × avr_t κ)
    (fuel : Nat) (avr : avr_t κ) : Option (run_result κ) :=
  run_loop_from lim avr_run fuel 0 (loop_init avr)

/-- The loop variables after `n` iterations of the loop body, whether or not
the loop would have stopped on the way. -/
def vars_after {κ : Type} (lim : run_limits) (avr_run : avr_t κ → cpu_state × avr_t κ) :
    Nat → loop_vars κ → loop_vars κ
  | 0, v => v
  | n + 1, v => vars_after lim avr_run n (loop_body lim avr_run v).2

/-- What `avr_run` returns on the call of iteration `j + 1`. -/
def step_report {κ : Type} (lim : run_limits) (avr_run : avr_t κ → cpu_state × avr_t κ)
    (j : Nat) (v : loop_vars κ) : cpu_state :=
  (avr_run (vars_after lim avr_run j v).avr).1

/-- The lines of the vitals dump that come before the memory dump. -/
inductive vitals_line where
  | cycle_count (n : Nat)
  | instruction_count (n : Nat)
  | pc (n : Nat)
  | infinite_loop_detected
  deriving DecidableEq

/-- Lines 274-279: the cycle count, the instruction count, the PC and, when
`found_infinite_loop && exit_on_infinite_loop`, the infinite-loop note. -/
def dump_vitals_header {κ : Type} (lim : run_limits) (v : loop_vars κ) : List vitals_line :=
  [vitals_line.cycle_count v.avr.cycle, vitals_line.instruction_count v.instruction_count,
    vitals_line.pc v.avr.pc] ++
  (if v.found_infinite_loop ≠ 0 ∧ lim.exit_on_infinite_loop ≠ 0
    then [vitals_line.infinite_loop_detected] else [])

/-- The stop reasons of the specification (section 3). -/
inductive stop_reason where
  | Completed
  | Crashed
  | CyclesExhausted
  | InstructionsExhausted
  | VacuousInfiniteLoop
  deriving DecidableEq

/-- The Termination Policy Evaluator as the specification words it (section
4.2), for comparison with `loop_body`: crash first, then done, then the
infinite-loop rule, then the cycle budget, then the instruction budget. -/
def spec_stop_reason (previous_pc current_pc interrupt_enable cycle_count instruction_count : Nat)
    (lim : run_limits) (step : cpu_state) : Option stop_reason :=
  if step = cpu_Crashed then some stop_reason.Crashed
  else if step = cpu_Done then some stop_reason.Completed
  else if lim.exit_on_infinite_loop ≠ 0 ∧ current_pc = previous_pc ∧ interrupt_enable = 0 then
    some stop_reason.VacuousInfiniteLoop
  else if 0 < lim.max_cycles ∧ lim.max_cycles ≤ cycle_count then
    some stop_reason.CyclesExhausted
  else if 0 < lim.max_instructions ∧ lim.max_instructions ≤ instruction_count then
    some stop_reason.InstructionsExhausted
  else none

/-! ## Concrete machines and steps -/

/-- A machine with nothing but a PC, a cycle count and the I flag. -/
def small_avr (pc cycle sreg_I : Nat) : avr_t Unit :=
  ⟨pc, cycle, sreg_I, ()⟩

/-- A step that takes one cycle, leaves the PC and the I flag as they are (a
jump to itself) and reports `state`. -/
def self_jump (state : cpu_state) (a : avr_t Unit) : cpu_state × avr_t Unit :=
  (state, { a with cycle := a.cycle + 1 })

/-- A step that takes two cycles, moves the PC one word on and reports
`cpu_Running`. -/
def straight_line (a : avr_t Unit) : cpu_state × avr_t Unit :=
  (cpu_Running, { a with pc := a.pc + 1, cycle := a.cycle + 2 })

/-! ## The loop over the chunks of an Intel-HEX file -/

/-- Modelled from the spec: the declaration of `ihex_chunk_t` (`sim_hex.h`) is
not part of this file. The fields are those of the spec's address-tagged chunk
under the names `run_avr.c` uses: a 32-bit base address, the data buffer and
its size. -/
structure ihex_chunk_t where
  baseaddr : Nat
  data : List Nat
  size : Nat
  deriving DecidableEq

/-- Modelled from the spec: the declaration of `elf_firmware_t` (`sim_elf.h`) is
not part of this file. The fields are those of the spec's firmware descriptor
under the names `run_avr.c` uses; `none` is a NULL buffer pointer. The fields
`main` never names are `other`. -/
structure elf_firmware_t (φ : Type) where
  mmcu : List Char
  frequency : Nat
  flash : Option (List Nat)
  flashsize : Nat
  flashbase : Nat
  eeprom : Option (List Nat)
  eesize : Nat
  other : φ
  deriving DecidableEq

/-- The two macros `AVR_SEGMENT_OFFSET_FLASH` and `AVR_SEGMENT_OFFSET_EEPROM`,
whose definitions are in a header outside this file. -/
structure segment_offsets where
  AVR_SEGMENT_OFFSET_FLASH : Nat
  AVR_SEGMENT_OFFSET_EEPROM : Nat

/-- Line 178: `chunk[ci].baseaddr < (1*1024*1024)`. -/
def flash_rule (c : ihex_chunk_t) : Prop :=
  c.baseaddr < 1 * 1024 * 1024

instance (c : ihex_chunk_t) : Decidable (flash_rule c) := by
  unfold flash_rule; infer_instance

/-- Lines 183-184: `chunk[ci].baseaddr >= AVR_SEGMENT_OFFSET_EEPROM ||
chunk[ci].baseaddr + loadBase >= AVR_SEGMENT_OFFSET_EEPROM`, the sum being
taken in 32-bit unsigned arithmetic. -/
def eeprom_rule (seg : segment_offsets) (loadBase : Nat) (c : ihex_chunk_t) : Prop :=
  seg.AVR_SEGMENT_OFFSET_EEPROM ≤ c.baseaddr ∨
    seg.AVR_SEGMENT_OFFSET_EEPROM ≤ (c.baseaddr + loadBase) % 2 ^ 32

instance (seg : segment_offsets) (loadBase : Nat) (c : ihex_chunk_t) :
    Decidable (eeprom_rule seg loadBase c) := by
  unfold eeprom_rule; infer_instance

/-- The body of the chunk loop, lines 178-189 (the `printf` calls apart). -/
def hex_load_chunk {φ : Type} (seg : segment_offsets) (loadBase : Nat)
    (f : elf_firmware_t φ) (c : ihex_chunk_t) : elf_firmware_t φ :=
  if flash_rule c then
    { f with flash := some c.data, flashsize := c.size, flashbase := c.baseaddr }
  else if eeprom_rule seg loadBase c then
    { f with eeprom := some c.data, eesize := c.size }
  else f

/-- The chunk loop, lines 177-190, over the chunks `chunk[0] .. chunk[cnt-1]`. -/
def hex_load_chunks {φ : Type} (seg : segment_offsets) (loadBase : Nat)
    (f : elf_firmware_t φ) (chunks : List ihex_chunk_t) : elf_firmware_t φ :=
  chunks.foldl (hex_load_chunk seg loadBase) f

/-- Line 92: `elf_firmware_t f = {{0}}`. -/
def elf_firmware_zero {φ : Type} (zero : φ) : elf_firmware_t φ :=
  ⟨[], 0, none, 0, 0, none, 0, zero⟩

/-! ## The loop over the command line -/

/-- A call of one of the two firmware readers, with the file name passed. -/
inductive reader_call where
  | read_ihex_chunks (filename : String)
  | elf_read_firmware (filename : String)
  deriving DecidableEq

/-- The functions of other files that the argument loop calls. `atoi` and
`atoll` return a C integer; `read_ihex_chunks` returns the count and the chunk
array; `elf_read_firmware` returns its status and the descriptor it filled. -/
structure collaborators (φ : Type) where
  atoi : String → Int
  atoll : String → Int
  read_ihex_chunks : String → Int × List ihex_chunk_t
  elf_read_firmware : String → elf_firmware_t φ → Int × elf_firmware_t φ

/-- The locals of `main` that the argument loop writes (lines 92-106), and
`calls`, the calls of the firmware readers made so far, oldest first. -/
structure main_vars (φ : Type) where
  f : elf_firmware_t φ
  f_cpu : Nat
  trace : Nat
  gdb : Nat
  log : Nat
  name : List Char
  loadBase : Nat
  trace_vectors : List Int
  vcd_input : Option String
  dump_vitals_filename : Option String
  max_cycles : Nat
  max_instructions : Nat
  exit_on_infinite_loop : Nat
  calls : List reader_call
  deriving DecidableEq

/-- How the argument loop ends: `exit(status)` with the locals as they were at
that moment, or the end of the command line. -/
inductive outcome (φ : Type) where
  | exited (status : Nat) (st : main_vars φ)
  | parsed (st : main_vars φ)
  deriving DecidableEq

/-- The C function `strrchr`: the tail of the string that starts at the last
occurrence of `c`. -/
def strrchr : List Char → Char → Option (List Char)
  | [], _ => none
  | x :: xs, c =>
    match strrchr xs c with
    | some r => some r
    | none => if x = c then some (x :: xs) else none

/-- Whether `strcasecmp a b` is 0. -/
def strcasecmp_eq (a b : List Char) : Bool :=
  a.map Char.toLower == b.map Char.toLower

/-- Lines 163-164: `suffix && !strcasecmp(suffix, ".hex")`. -/
def is_hex_name (filename : String) : Bool :=
  match strrchr filename.data '.' with
  | some suffix => strcasecmp_eq suffix ".hex".data
  | none => false

/-- Lines 162-197: the firmware argument. -/
def load_firmware_arg {φ : Type} (seg : segment_offsets) (ext : collaborators φ)
    (filename : String) (st : main_vars φ) : outcome φ :=
  if is_hex_name filename then
    if st.name.head? = none ∨ st.f_cpu = 0 then outcome.exited 1 st
    else
      let r := ext.read_ihex_chunks filename
      let st1 := { st with calls := st.calls ++ [reader_call.read_ihex_chunks filename] }
      if r.1 ≤ 0 then outcome.exited 1 st1
      else
        outcome.parsed
          { st1 with f := hex_load_chunks seg st.loadBase st.f (r.2.take r.1.toNat) }
  else
    let r := ext.elf_read_firmware filename st.f
    let st1 := { st with f := r.2, calls := st.calls ++ [reader_call.elf_read_firmware filename] }
    if r.1 = -1 then outcome.exited 1 st1 else outcome.parsed st1

/-- The argument loop, lines 111-199, on the arguments from `argv[pi]` on.
`display_usage` and `list_cores` end in `exit(1)`. `name` is a buffer of 24
characters filled by `strncpy`; `f_cpu` is a 32-bit unsigned and the two
budgets are 64-bit unsigned. -/
def arg_loop {φ : Type} (seg : segment_offsets) (ext : collaborators φ) :
    List String → main_vars φ → outcome φ
  | [], st => outcome.parsed st
  | a :: rest, st =>
    if a = "--list-cores" then outcome.exited 1 st
    else if a = "-h" ∨ a = "--help" then outcome.exited 1 st
    else if a = "-m" ∨ a = "--mcu" then
      match rest with
      | v :: rest1 => arg_loop seg ext rest1 { st with name := v.data.take 24 }
      | [] => outcome.exited 1 st
    else if a = "-f" ∨ a = "--freq" then
      match rest with
      | v :: rest1 => arg_loop seg ext rest1 { st with f_cpu := (ext.atoi v % 2 ^ 32).toNat }
      | [] => outcome.exited 1 st
    else if a = "-i" ∨ a = "--input" then
      match rest with
      | v :: rest1 => arg_loop seg ext rest1 { st with vcd_input := some v }
      | [] => outcome.exited 1 st
    else if a = "-t" ∨ a = "--trace" then
      arg_loop seg ext rest { st with trace := st.trace + 1 }
    else if a = "-ti" then
      match rest with
      | v :: rest1 =>
        arg_loop seg ext rest1 { st with trace_vectors := st.trace_vectors ++ [ext.atoi v] }
      | [] => outcome.parsed st
    else if a = "-g" ∨ a = "--gdb" then
      arg_loop seg ext rest { st with gdb := st.gdb + 1 }
    else if a = "-v" then
      arg_loop seg ext rest { st with log := st.log + 1 }
    else if a = "-ee" then
      arg_loop seg ext rest { st with loadBase := seg.AVR_SEGMENT_OFFSET_EEPROM }
    else if a = "-ff" then
      arg_loop seg ext rest { st with loadBase := seg.AVR_SEGMENT_OFFSET_FLASH }
    else if a = "--dump-vitals" then
      match rest with
      | v :: rest1 => arg_loop seg ext rest1 { st with dump_vitals_filename := some v }
      | [] => outcome.exited 1 st
    else if a = "--max-cycles" then
      match rest with
      | v :: rest1 => arg_loop seg ext rest1 { st with max_cycles := (ext.atoll v % 2 ^ 64).toNat }
      | [] => outcome.exited 1 st
    else if a = "--max-instructions" then
      match rest with
      | v :: rest1 =>
        arg_loop seg ext rest1 { st with max_instructions := (ext.atoll v % 2 ^ 64).toNat }
      | [] => outcome.exited 1 st
    else if a = "--exit-on-infinite" then
      arg_loop seg ext rest { st with exit_on_infinite_loop := 1 }
    else if a.data.head? ≠ some '-' then
      match load_firmware_arg seg ext a st with
      | outcome.exited status st1 => outcome.exited status st1
      | outcome.parsed st1 => arg_loop seg ext rest st1
    else arg_loop seg ext rest st

/-- Lines 92-106: the initial values of the locals. -/
def main_init {φ : Type} (seg : segment_offsets) (zero : φ) : main_vars φ :=
  { f := elf_firmware_zero zero, f_cpu := 0, trace := 0, gdb := 0, log := 1, name := [],
    loadBase := seg.AVR_SEGMENT_OFFSET_FLASH, trace_vectors := [], vcd_input := none,
    dump_vitals_filename := none, max_cycles := 0, max_instructions := 0,
    exit_on_infinite_loop := 0, calls := [] }

/-- Lines 108-199: `display_usage` when there is no argument, else the argument
loop from `argv[1]`. -/
def main_args {φ : Type} (seg : segment_offsets) (ext : collaborators φ) (zero : φ)
    (argv : List String) : outcome φ :=
  match argv with
  | [_] => outcome.exited 1 (main_init seg zero)
  | [] => outcome.parsed (main_init seg zero)
  | _ :: args => arg_loop seg ext args (main_init seg zero)

/-! ## Concrete command lines and HEX files -/

/-- Segment offsets for the examples: flash at 0, EEPROM at `0x810000`. -/
def example_segments : segment_offsets :=
  ⟨0, 0x810000⟩

/-- Collaborators for the examples: `atoi` and `atoll` return 8000000, every
HEX file has the one chunk of 4 bytes at address 0, and the ELF reader
fails. -/
def example_collaborators : collaborators Unit where
  atoi := fun _ => 8000000
  atoll := fun _ => 8000000
  read_ihex_chunks := fun _ => (1, [⟨0, [1, 2, 3, 4], 4⟩])
  elf_read_firmware := fun _ f => (-1, f)

/-! ## Lemmas on the simulation loop -/

section loop_lemmas

variable {κ : Type} (lim : run_limits) (avr_run : avr_t κ → cpu_state × avr_t κ)

theorem loop_body_avr (v : loop_vars κ) :
    (loop_body lim avr_run v).2.avr = (avr_run v.avr).2 := rfl

theorem loop_body_instruction_count (v : loop_vars κ) :
    (loop_body lim avr_run v).2.instruction_count = (v.instruction_count + 1) % 2 ^ 64 := rfl

theorem loop_body_found (v : loop_vars κ) :
    (loop_body lim avr_run v).2.found_infinite_loop =
      if infinite_loop_rule lim v.avr.pc (avr_run v.avr).2 then 1 else v.found_infinite_loop := rfl

theorem loop_body_state (v : loop_vars κ) :
    (loop_body lim avr_run v).1 =
      if instructions_reached lim ((v.instruction_count + 1) % 2 ^ 64) then cpu_Done
      else if cycles_reached lim (avr_run v.avr).2 then cpu_Done
      else if infinite_loop_rule lim v.avr.pc (avr_run v.avr).2 then cpu_Done
      else (avr_run v.avr).1 := rfl

theorem vars_after_succ (n : Nat) (v : loop_vars κ) :
    vars_after lim avr_run (n + 1) v =
      (loop_body lim avr_run (vars_after lim avr_run n v)).2 := by
  induction n generalizing v with
  | zero => rfl
  | succ n ih =>
    show vars_after lim avr_run (n + 1) (loop_body lim avr_run v).2 = _
    rw [ih]
    rfl

/-- The loop breaks on an iteration exactly when the step reported done or
crashed, or one of the three rules of lines 249-260 fired. -/
theorem loop_breaks_iff (v : loop_vars κ) :
    loop_breaks (loop_body lim avr_run v).1 ↔
      ((avr_run v.avr).1 = cpu_Done ∨ (avr_run v.avr).1 = cpu_Crashed ∨
        infinite_loop_rule lim v.avr.pc (avr_run v.avr).2 ∨
        cycles_reached lim (avr_run v.avr).2 ∨
        instructions_reached lim ((v.instruction_count + 1) % 2 ^ 64)) := by
  rw [loop_body_state]
  unfold loop_breaks
  split_ifs with h1 h2 h3 <;> simp_all

/-- If the loop breaks on iteration `k + 1` and on none before, then with more
than `k` units of fuel it returns after `k + 1` calls of `avr_run`. -/
theorem run_loop_from_breaks_at (k : Nat) :
    ∀ (fuel n : Nat) (v : loop_vars κ),
      (∀ j, j < k → ¬ loop_breaks (loop_body lim avr_run (vars_after lim avr_run j v)).1) →
      loop_breaks (loop_body lim avr_run (vars_after lim avr_run k v)).1 →
      k < fuel →
      run_loop_from lim avr_run fuel n v =
        some ⟨(loop_body lim avr_run (vars_after lim avr_run k v)).1,
          vars_after lim avr_run (k + 1) v, n + k + 1⟩ := by
  induction k with
  | zero =>
    intro fuel n v _ hb hf
    obtain ⟨fuel, rfl⟩ : ∃ m, fuel = m + 1 := ⟨fuel - 1, by omega⟩
    have hb0 : loop_breaks (loop_body lim avr_run v).1 := hb
    simp only [run_loop_from, hb0, if_true]
    rfl
  | succ k ih =>
    intro fuel n v hnb hb hf
    obtain ⟨fuel, rfl⟩ : ∃ m, fuel = m + 1 := ⟨fuel - 1, by omega⟩
    have h0 : ¬ loop_breaks (loop_body lim avr_run v).1 := hnb 0 (by omega)
    simp only [run_loop_from, h0, if_false]
    have hnb1 : ∀ j, j < k →
        ¬ loop_breaks (loop_body lim avr_run
          (vars_after lim avr_run j (loop_body lim avr_run v).2)).1 :=
      fun j hj => hnb (j + 1) (by omega)
    rw [ih fuel (n + 1) (loop_body lim avr_run v).2 hnb1 hb (by omega)]
    have e : n + 1 + k + 1 = n + (k + 1) + 1 := by omega
    rw [e]
    rfl

/-- If the loop breaks on none of the first `fuel` iterations, `fuel` units of
fuel are not enough. -/
theorem run_loop_from_none :
    ∀ (fuel n : Nat) (v : loop_vars κ),
      (∀ j, j < fuel → ¬ loop_breaks (loop_body lim avr_run (vars_after lim avr_run j v)).1) →
      run_loop_from lim avr_run fuel n v = none := by
  intro fuel
  induction fuel with
  | zero => intro n v _; rfl
  | succ fuel ih =>
    intro n v hnb
    have h0 : ¬ loop_breaks (loop_body lim avr_run v).1 := hnb 0 (by omega)
    simp only [run_loop_from, h0, if_false]
    exact ih (n + 1) _ (fun j hj => hnb (j + 1) (by omega))

/-- Whatever the loop returns is the state after some number of iterations. -/
theorem run_loop_from_some :
    ∀ (fuel n : Nat) (v : loop_vars κ) (r : run_result κ),
      run_loop_from lim avr_run fuel n v = some r →
      ∃ k, r.vars = vars_after lim avr_run (k + 1) v ∧ r.steps = n + k + 1 ∧
        r.state = (loop_body lim avr_run (vars_after lim avr_run k v)).1 := by
  intro fuel
  induction fuel with
  | zero => intro n v r h; simp [run_loop_from] at h
  | succ fuel ih =>
    intro n v r h
    by_cases h0 : loop_breaks (loop_body lim avr_run v).1
    · simp only [run_loop_from, h0, if_true, Option.some.injEq] at h
      subst h
      exact ⟨0, rfl, rfl, rfl⟩
    · simp only [run_loop_from, h0, if_false] at h
      obtain ⟨k, h1, h2, h3⟩ := ih (n + 1) _ r h
      exact ⟨k + 1, h1, by omega, h3⟩

/-- The instruction counter after `n` iterations from 0, while it has not
wrapped. -/
theorem vars_after_instruction_count (avr : avr_t κ) (n : Nat) (hn : n < 2 ^ 64) :
    (vars_after lim avr_run n (loop_init avr)).instruction_count = n := by
  induction n with
  | zero => rfl
  | succ n ih =>
    rw [vars_after_succ, loop_body_instruction_count, ih (by omega)]
    exact Nat.mod_eq_of_lt hn

/-- With `exit_on_infinite_loop` off an iteration leaves `found_infinite_loop`
as it was. -/
theorem loop_body_found_of_off (h : lim.exit_on_infinite_loop = 0) (v : loop_vars κ) :
    (loop_body lim avr_run v).2.found_infinite_loop = v.found_infinite_loop := by
  rw [loop_body_found]
  have : ¬ infinite_loop_rule lim v.avr.pc (avr_run v.avr).2 := fun hr => hr.1 h
  simp [this]

theorem vars_after_found_of_off (h : lim.exit_on_infinite_loop = 0) (n : Nat)
    (v : loop_vars κ) :
    (vars_after lim avr_run n v).found_infinite_loop = v.found_infinite_loop := by
  induction n with
  | zero => rfl
  | succ n ih => rw [vars_after_succ, loop_body_found_of_off lim avr_run h, ih]

/-- An iteration on which the step reports neither done nor crashed and none
of the three rules fires does not break the loop. The conditions are stated on
the variables the iteration leaves. -/
theorem not_breaks_of_quiet (v : loop_vars κ)
    (h1 : (avr_run v.avr).1 ≠ cpu_Done) (h2 : (avr_run v.avr).1 ≠ cpu_Crashed)
    (h3 : ¬ infinite_loop_rule lim v.avr.pc (loop_body lim avr_run v).2.avr)
    (h4 : ¬ cycles_reached lim (loop_body lim avr_run v).2.avr)
    (h5 : ¬ instructions_reached lim (loop_body lim avr_run v).2.instruction_count) :
    ¬ loop_breaks (loop_body lim avr_run v).1 := by
  rw [loop_breaks_iff]
  rintro (h | h | h | h | h)
  · exact h1 h
  · exact h2 h
  · exact h3 h
  · exact h4 h
  · exact h5 h

/-- An iteration on which a budget is reached ends with `state = cpu_Done`. -/
theorem loop_body_state_of_budget (v : loop_vars κ)
    (h : cycles_reached lim (loop_body lim avr_run v).2.avr ∨
      instructions_reached lim (loop_body lim avr_run v).2.instruction_count) :
    (loop_body lim avr_run v).1 = cpu_Done := by
  rw [loop_body_state]
  rcases h with h | h
  · have hc : cycles_reached lim (avr_run v.avr).2 := h
    by_cases h3 : instructions_reached lim ((v.instruction_count + 1) % 2 ^ 64)
    · rw [if_pos h3]
    · rw [if_neg h3, if_pos hc]
  · have hi : instructions_reached lim ((v.instruction_count + 1) % 2 ^ 64) := h
    rw [if_pos hi]

/-- While the infinite-loop rule fires on no iteration, `found_infinite_loop`
keeps its value. -/
theorem vars_after_found_of_quiet (v : loop_vars κ) (n : Nat)
    (h : ∀ i, i < n → ¬ infinite_loop_rule lim (vars_after lim avr_run i v).avr.pc
      (vars_after lim avr_run (i + 1) v).avr) :
    (vars_after lim avr_run n v).found_infinite_loop = v.found_infinite_loop := by
  induction n with
  | zero => rfl
  | succ n ih =>
    have hn := h n (by omega)
    rw [vars_after_succ] at hn
    have hn1 : ¬ infinite_loop_rule lim (vars_after lim avr_run n v).avr.pc
        (avr_run (vars_after lim avr_run n v).avr).2 := hn
    rw [vars_after_succ, loop_body_found, if_neg hn1]
    exact ih (fun i hi => h i (by omega))

end loop_lemmas

/-! ## The claims on the simulation loop -/

section loop_claims

variable {κ : Type}

/-- C1, as stated, fails: the step reports `cpu_Crashed` on a step that also
reaches the cycle budget (`max_cycles = 1`, one cycle used), and the loop ends
with `state = cpu_Done`, not `cpu_Crashed`. -/
theorem crash_overwritten_by_cycle_budget :
    (self_jump cpu_Crashed (small_avr 0 0 1)).1 = cpu_Crashed ∧
      cycles_reached ⟨1, 0, 0⟩ (self_jump cpu_Crashed (small_avr 0 0 1)).2 ∧
      run_loop ⟨1, 0, 0⟩ (self_jump cpu_Crashed) 1 (small_avr 0 0 1) =
        some ⟨cpu_Done, ⟨small_avr 0 1 1, 1, 0⟩, 1⟩ ∧
      cpu_Done ≠ cpu_Crashed := by
  decide

/-- C1, amended: when `avr_run` returns `cpu_Crashed` the loop ends on that
iteration; the final `state` is `cpu_Crashed` when on that step neither budget
is reached and the infinite-loop rule does not fire, and it is `cpu_Done` when
a budget is reached or the rule fires. -/
theorem crashed_step_final_state (lim : run_limits)
    (avr_run : avr_t κ → cpu_state × avr_t κ) (v : loop_vars κ) (fuel n : Nat)
    (h : (avr_run v.avr).1 = cpu_Crashed) :
    run_loop_from lim avr_run (fuel + 1) n v =
        some ⟨(loop_body lim avr_run v).1, (loop_body lim avr_run v).2, n + 1⟩ ∧
      (¬ infinite_loop_rule lim v.avr.pc (avr_run v.avr).2 →
        ¬ cycles_reached lim (avr_run v.avr).2 →
        ¬ instructions_reached lim ((v.instruction_count + 1) % 2 ^ 64) →
        (loop_body lim avr_run v).1 = cpu_Crashed) ∧
      (infinite_loop_rule lim v.avr.pc (avr_run v.avr).2 ∨
          cycles_reached lim (avr_run v.avr).2 ∨
          instructions_reached lim ((v.instruction_count + 1) % 2 ^ 64) →
        (loop_body lim avr_run v).1 = cpu_Done) := by
  have hb : loop_breaks (loop_body lim avr_run v).1 :=
    (loop_breaks_iff lim avr_run v).2 (Or.inr (Or.inl h))
  refine ⟨?_, ?_, ?_⟩
  · simp only [run_loop_from, hb, if_true]
  · intro h1 h2 h3
    rw [loop_body_state, if_neg h3, if_neg h2, if_neg h1, h]
  · intro hany
    rw [loop_body_state]
    split_ifs with h3 h2 h1
    · rfl
    · rfl
    · rfl
    · rcases hany with h' | h' | h'
      · exact absurd h' h1
      · exact absurd h' h2
      · exact absurd h' h3

theorem crashed_step_final_state_witness :
    (self_jump cpu_Crashed (small_avr 0 0 1)).1 = cpu_Crashed ∧
      run_loop_from ⟨0, 0, 0⟩ (self_jump cpu_Crashed) (0 + 1) 0 (loop_init (small_avr 0 0 1)) =
        some ⟨cpu_Crashed, ⟨small_avr 0 1 1, 1, 0⟩, 1⟩ :=
  ⟨by decide,
    (crashed_step_final_state ⟨0, 0, 0⟩ (self_jump cpu_Crashed) (loop_init (small_avr 0 0 1)) 0 0
      (by decide)).1⟩

/-- C2, as stated, fails: a run stopped only by the cycle budget (the step
reports `cpu_Running`, `max_cycles = 1`) and a run that completes (the step
reports `cpu_Done`, no budget) leave the very same result, `state = cpu_Done`
with the same counters, and the same vitals header. -/
theorem budget_stop_same_as_completion :
    (self_jump cpu_Running (small_avr 0 0 1)).1 = cpu_Running ∧
      ¬ infinite_loop_rule ⟨1, 0, 0⟩ 0 (self_jump cpu_Running (small_avr 0 0 1)).2 ∧
      cycles_reached ⟨1, 0, 0⟩ (self_jump cpu_Running (small_avr 0 0 1)).2 ∧
      run_loop ⟨1, 0, 0⟩ (self_jump cpu_Running) 1 (small_avr 0 0 1) =
        some ⟨cpu_Done, ⟨small_avr 0 1 1, 1, 0⟩, 1⟩ ∧
      run_loop ⟨0, 0, 0⟩ (self_jump cpu_Done) 1 (small_avr 0 0 1) =
        some ⟨cpu_Done, ⟨small_avr 0 1 1, 1, 0⟩, 1⟩ ∧
      dump_vitals_header ⟨1, 0, 0⟩ (⟨small_avr 0 1 1, 1, 0⟩ : loop_vars Unit) =
        dump_vitals_header ⟨0, 0, 0⟩ (⟨small_avr 0 1 1, 1, 0⟩ : loop_vars Unit) := by
  decide

/-- C2, amended: when the loop stops only because a budget was reached, the
iteration ends with `state = cpu_Done` and `found_infinite_loop` as it was,
which is what the same iteration gives when the step reports `cpu_Done`: the
loop has no outcome of its own for an exhausted budget. -/
theorem budget_stop_is_done (lim : run_limits)
    (avr_run : avr_t κ → cpu_state × avr_t κ) (v : loop_vars κ) (fuel n : Nat)
    (_hrun : (avr_run v.avr).1 ≠ cpu_Done ∧ (avr_run v.avr).1 ≠ cpu_Crashed)
    (hinf : ¬ infinite_loop_rule lim v.avr.pc (avr_run v.avr).2)
    (hbudget : cycles_reached lim (avr_run v.avr).2 ∨
      instructions_reached lim ((v.instruction_count + 1) % 2 ^ 64)) :
    (loop_body lim avr_run v).1 = cpu_Done ∧
      (loop_body lim avr_run v).2.found_infinite_loop = v.found_infinite_loop ∧
      loop_body lim avr_run v = loop_body lim (fun a => (cpu_Done, (avr_run a).2)) v ∧
      run_loop_from lim avr_run (fuel + 1) n v =
        some ⟨cpu_Done, (loop_body lim avr_run v).2, n + 1⟩ := by
  have hs : (loop_body lim avr_run v).1 = cpu_Done := by
    rw [loop_body_state]
    rcases hbudget with h' | h'
    · by_cases h3 : instructions_reached lim ((v.instruction_count + 1) % 2 ^ 64)
      · rw [if_pos h3]
      · rw [if_neg h3, if_pos h']
    · rw [if_pos h']
  have hs2 : (loop_body lim (fun a => (cpu_Done, (avr_run a).2)) v).1 = cpu_Done := by
    rw [loop_body_state]
    split_ifs <;> rfl
  refine ⟨hs, ?_, ?_, ?_⟩
  · rw [loop_body_found, if_neg hinf]
  · exact Prod.ext (hs.trans hs2.symm) rfl
  · have hb : loop_breaks (loop_body lim avr_run v).1 := Or.inl hs
    simp only [run_loop_from, hb, if_true]
    rw [hs]

theorem budget_stop_is_done_witness :
    loop_body ⟨0, 1, 1⟩ (self_jump cpu_Running) (loop_init (small_avr 0 0 1)) =
      loop_body ⟨0, 1, 1⟩ (fun a => (cpu_Done, (self_jump cpu_Running a).2))
        (loop_init (small_avr 0 0 1)) :=
  (budget_stop_is_done ⟨0, 1, 1⟩ (self_jump cpu_Running) (loop_init (small_avr 0 0 1)) 0 0
    (by decide) (by decide) (by decide)).2.2.1

/-- C3, as stated, fails: with `exit_on_infinite_loop` on, a step that reports
`cpu_Done`, leaves the PC where it was and has the I flag clear sets
`found_infinite_loop` to 1, and the vitals header carries the note. -/
theorem done_step_flags_infinite_loop :
    (self_jump cpu_Done (small_avr 0 0 0)).1 = cpu_Done ∧
      run_loop ⟨0, 0, 1⟩ (self_jump cpu_Done) 1 (small_avr 0 0 0) =
        some ⟨cpu_Done, ⟨small_avr 0 1 0, 1, 1⟩, 1⟩ ∧
      vitals_line.infinite_loop_detected ∈
        dump_vitals_header ⟨0, 0, 1⟩ (⟨small_avr 0 1 0, 1, 1⟩ : loop_vars Unit) := by
  decide

/-- C3, amended: when the step reports `cpu_Done` or `cpu_Crashed` the loop
ends on that iteration. If the infinite-loop rule does not hold on that step
(`exit_on_infinite_loop` off, or the PC moved, or the I flag set),
`found_infinite_loop` stays as it was, so from 0 the vitals header has no
note, and with no budget reached the final `state` is the one reported. If the
rule holds, the iteration sets `found_infinite_loop = 1` and `state =
cpu_Done` whatever the step reported. -/
theorem done_or_crashed_step_infinite_flag (lim : run_limits)
    (avr_run : avr_t κ → cpu_state × avr_t κ) (v : loop_vars κ)
    (h : (avr_run v.avr).1 = cpu_Done ∨ (avr_run v.avr).1 = cpu_Crashed) :
    loop_breaks (loop_body lim avr_run v).1 ∧
      (¬ infinite_loop_rule lim v.avr.pc (avr_run v.avr).2 →
        (loop_body lim avr_run v).2.found_infinite_loop = v.found_infinite_loop ∧
        (v.found_infinite_loop = 0 →
          vitals_line.infinite_loop_detected ∉
            dump_vitals_header lim (loop_body lim avr_run v).2) ∧
        (¬ cycles_reached lim (avr_run v.avr).2 →
          ¬ instructions_reached lim ((v.instruction_count + 1) % 2 ^ 64) →
          (loop_body lim avr_run v).1 = (avr_run v.avr).1)) ∧
      (infinite_loop_rule lim v.avr.pc (avr_run v.avr).2 →
        (loop_body lim avr_run v).2.found_infinite_loop = 1 ∧
        (loop_body lim avr_run v).1 = cpu_Done ∧
        vitals_line.infinite_loop_detected ∈
          dump_vitals_header lim (loop_body lim avr_run v).2) := by
  refine ⟨?_, ?_, ?_⟩
  · exact (loop_breaks_iff lim avr_run v).2
      (h.elim Or.inl (fun hc => Or.inr (Or.inl hc)))
  · intro hinf
    have hf : (loop_body lim avr_run v).2.found_infinite_loop = v.found_infinite_loop := by
      rw [loop_body_found, if_neg hinf]
    refine ⟨hf, ?_, ?_⟩
    · intro h0
      simp [dump_vitals_header, hf, h0]
    · intro h2 h3
      rw [loop_body_state, if_neg h3, if_neg h2, if_neg hinf]
  · intro hinf
    have hf : (loop_body lim avr_run v).2.found_infinite_loop = 1 := by
      rw [loop_body_found, if_pos hinf]
    refine ⟨hf, ?_, ?_⟩
    · rw [loop_body_state]
      split_ifs <;> rfl
    · simp [dump_vitals_header, hf, hinf.1]

theorem done_or_crashed_step_infinite_flag_witness :
    ((self_jump cpu_Done (small_avr 0 0 1)).1 = cpu_Done ∨
        (self_jump cpu_Done (small_avr 0 0 1)).1 = cpu_Crashed) ∧
      loop_breaks (loop_body ⟨0, 0, 1⟩ (self_jump cpu_Done) (loop_init (small_avr 0 0 1))).1 :=
  ⟨by decide,
    (done_or_crashed_step_infinite_flag ⟨0, 0, 1⟩ (self_jump cpu_Done)
      (loop_init (small_avr 0 0 1)) (by decide)).1⟩

/-- C4: with `max_cycles = N > 0`, if step `k` is the first after which the
cycle count is at least `N`, and on the steps before it the CPU reports
neither done nor crashed, the infinite-loop rule does not fire and the
instruction budget is not reached, then the loop makes exactly `k` calls of
`avr_run`: fewer than `k` iterations do not end it, and with `k` or more it
returns after `k` steps, with `state = cpu_Done`. -/
theorem max_cycles_stops_on_first_step (lim : run_limits)
    (avr_run : avr_t κ → cpu_state × avr_t κ) (avr : avr_t κ) (k : Nat)
    (hN : 0 < lim.max_cycles) (hk : 0 < k)
    (hge : lim.max_cycles ≤ (vars_after lim avr_run k (loop_init avr)).avr.cycle)
    (hlt : ∀ j, 0 < j → j < k →
      (vars_after lim avr_run j (loop_init avr)).avr.cycle < lim.max_cycles)
    (hother : ∀ i, i + 1 < k →
      step_report lim avr_run i (loop_init avr) ≠ cpu_Done ∧
      step_report lim avr_run i (loop_init avr) ≠ cpu_Crashed ∧
      ¬ infinite_loop_rule lim (vars_after lim avr_run i (loop_init avr)).avr.pc
        (vars_after lim avr_run (i + 1) (loop_init avr)).avr ∧
      ¬ instructions_reached lim
        (vars_after lim avr_run (i + 1) (loop_init avr)).instruction_count) :
    ∀ fuel,
      (fuel < k → run_loop lim avr_run fuel avr = none) ∧
      (k ≤ fuel → run_loop lim avr_run fuel avr =
        some ⟨cpu_Done, vars_after lim avr_run k (loop_init avr), k⟩) := by
  obtain ⟨m, rfl⟩ : ∃ m, k = m + 1 := ⟨k - 1, by omega⟩
  have hquiet : ∀ j, j < m →
      ¬ loop_breaks (loop_body lim avr_run (vars_after lim avr_run j (loop_init avr))).1 := by
    intro j hj
    obtain ⟨h1, h2, h3, h5⟩ := hother j (by omega)
    have h4 := hlt (j + 1) (by omega) (by omega)
    rw [vars_after_succ] at h3 h5 h4
    exact not_breaks_of_quiet lim avr_run _ h1 h2 h3 (fun hc => by have := hc.2; omega) h5
  have hcyc : cycles_reached lim
      (loop_body lim avr_run (vars_after lim avr_run m (loop_init avr))).2.avr := by
    rw [vars_after_succ] at hge
    exact ⟨by omega, hge⟩
  have hdone := loop_body_state_of_budget lim avr_run _ (Or.inl hcyc)
  intro fuel
  constructor
  · intro hf
    exact run_loop_from_none lim avr_run fuel 0 _ (fun j hj => hquiet j (by omega))
  · intro hf
    have := run_loop_from_breaks_at lim avr_run m fuel 0 (loop_init avr) hquiet
      (Or.inl hdone) (by omega)
    rw [hdone, Nat.zero_add] at this
    exact this

theorem max_cycles_stops_on_first_step_witness :
    run_loop ⟨5, 0, 1⟩ straight_line 2 (small_avr 0 0 0) = none ∧
      run_loop ⟨5, 0, 1⟩ straight_line 10 (small_avr 0 0 0) =
        some ⟨cpu_Done, vars_after ⟨5, 0, 1⟩ straight_line 3 (loop_init (small_avr 0 0 0)), 3⟩ :=
  have h := max_cycles_stops_on_first_step ⟨5, 0, 1⟩ straight_line (small_avr 0 0 0) 3
    (by decide) (by decide) (by decide)
    (by intro j h0 h3; interval_cases j <;> decide)
    (by intro i hi; have hi2 : i < 2 := by omega
        interval_cases i <;> decide)
  ⟨(h 2).1 (by decide), (h 10).2 (by decide)⟩

/-- C5: with `max_instructions = N > 0`, if on each of the first `N` steps the
CPU reports neither done nor crashed, the infinite-loop rule does not fire and
the cycle budget is not reached, the loop makes exactly `N` calls of `avr_run`
and ends with `instruction_count = N`, `state = cpu_Done`, no infinite loop
flagged, and InstructionsExhausted as the reason the specification's evaluator
gives for the last step. For `N = 1` and a step that leaves the PC where it
was with the I flag set, one step is made and no infinite loop is flagged,
whatever `exit_on_infinite_loop` is. -/
theorem max_instructions_runs_exactly (lim : run_limits)
    (avr_run : avr_t κ → cpu_state × avr_t κ) (avr : avr_t κ)
    (hN : 0 < lim.max_instructions) (h64 : lim.max_instructions < 2 ^ 64) :
    ((∀ i, i < lim.max_instructions →
        step_report lim avr_run i (loop_init avr) ≠ cpu_Done ∧
        step_report lim avr_run i (loop_init avr) ≠ cpu_Crashed ∧
        ¬ infinite_loop_rule lim (vars_after lim avr_run i (loop_init avr)).avr.pc
          (vars_after lim avr_run (i + 1) (loop_init avr)).avr ∧
        ¬ cycles_reached lim (vars_after lim avr_run (i + 1) (loop_init avr)).avr) →
      ∀ fuel,
        (fuel < lim.max_instructions → run_loop lim avr_run fuel avr = none) ∧
        (lim.max_instructions ≤ fuel →
          ∃ r, run_loop lim avr_run fuel avr = some r ∧
            r.steps = lim.max_instructions ∧
            r.vars.instruction_count = lim.max_instructions ∧
            r.state = cpu_Done ∧
            r.vars.found_infinite_loop = 0 ∧
            vitals_line.infinite_loop_detected ∉ dump_vitals_header lim r.vars ∧
            spec_stop_reason
              (vars_after lim avr_run (lim.max_instructions - 1) (loop_init avr)).avr.pc
              r.vars.avr.pc r.vars.avr.sreg_I r.vars.avr.cycle r.vars.instruction_count lim
              (step_report lim avr_run (lim.max_instructions - 1) (loop_init avr)) =
                some stop_reason.InstructionsExhausted)) ∧
    (lim.max_instructions = 1 → (avr_run avr).2.pc = avr.pc → (avr_run avr).2.sreg_I ≠ 0 →
      ∀ fuel, 1 ≤ fuel →
        ∃ r, run_loop lim avr_run fuel avr = some r ∧
          r.steps = 1 ∧ r.vars.instruction_count = 1 ∧ r.state = cpu_Done ∧
          r.vars.found_infinite_loop = 0 ∧
          vitals_line.infinite_loop_detected ∉ dump_vitals_header lim r.vars) := by
  constructor
  · intro hsteps
    obtain ⟨m, hm⟩ : ∃ m, lim.max_instructions = m + 1 := ⟨lim.max_instructions - 1, by omega⟩
    have hquiet : ∀ j, j < m →
        ¬ loop_breaks (loop_body lim avr_run (vars_after lim avr_run j (loop_init avr))).1 := by
      intro j hj
      obtain ⟨h1, h2, h3, h4⟩ := hsteps j (by omega)
      have hc := vars_after_instruction_count lim avr_run avr (j + 1) (by omega)
      rw [vars_after_succ] at h3 h4 hc
      refine not_breaks_of_quiet lim avr_run _ h1 h2 h3 h4 (fun hi => ?_)
      have := hi.2
      rw [hc] at this
      omega
    have hcm := vars_after_instruction_count lim avr_run avr (m + 1) (by omega)
    have hins : instructions_reached lim
        (loop_body lim avr_run (vars_after lim avr_run m (loop_init avr))).2.instruction_count := by
      have hc := hcm
      rw [vars_after_succ] at hc
      rw [hc]
      exact ⟨by omega, by omega⟩
    have hdone := loop_body_state_of_budget lim avr_run _ (Or.inr hins)
    have hfound : (vars_after lim avr_run (m + 1) (loop_init avr)).found_infinite_loop = 0 :=
      vars_after_found_of_quiet lim avr_run (loop_init avr) (m + 1)
        (fun i hi => (hsteps i (by omega)).2.2.1)
    intro fuel
    constructor
    · intro hf
      exact run_loop_from_none lim avr_run fuel 0 _ (fun j hj => hquiet j (by omega))
    · intro hf
      have hr := run_loop_from_breaks_at lim avr_run m fuel 0 (loop_init avr) hquiet
        (Or.inl hdone) (by omega)
      rw [hdone, Nat.zero_add] at hr
      refine ⟨_, hr, by simp only [hm], ?_, rfl, hfound, ?_, ?_⟩
      · simp only [hcm, hm]
      · simp only [dump_vitals_header, hfound]
        simp
      · obtain ⟨h1, h2, h3, h4⟩ := hsteps m (by omega)
        have hm1 : lim.max_instructions - 1 = m := by omega
        simp only [hm1, hcm]
        unfold spec_stop_reason
        rw [if_neg h2, if_neg h1]
        have h3s : ¬ (lim.exit_on_infinite_loop ≠ 0 ∧
            (vars_after lim avr_run (m + 1) (loop_init avr)).avr.pc =
              (vars_after lim avr_run m (loop_init avr)).avr.pc ∧
            (vars_after lim avr_run (m + 1) (loop_init avr)).avr.sreg_I = 0) :=
          fun hh => h3 ⟨hh.1, hh.2.1.symm, hh.2.2⟩
        have h4s : ¬ (0 < lim.max_cycles ∧
            lim.max_cycles ≤ (vars_after lim avr_run (m + 1) (loop_init avr)).avr.cycle) :=
          fun hh => h4 ⟨by omega, hh.2⟩
        rw [if_neg h3s, if_neg h4s, if_pos ⟨hN, by omega⟩]
  · intro h1 hpc hI fuel hf
    obtain ⟨fuel, rfl⟩ : ∃ m, fuel = m + 1 := ⟨fuel - 1, by omega⟩
    have hins : instructions_reached lim
        (loop_body lim avr_run (loop_init avr)).2.instruction_count :=
      ⟨by omega, by rw [h1]; exact Nat.le_refl 1⟩
    have hdone := loop_body_state_of_budget lim avr_run _ (Or.inr hins)
    have hb : loop_breaks (loop_body lim avr_run (loop_init avr)).1 := Or.inl hdone
    have hnot : ¬ infinite_loop_rule lim (loop_init avr).avr.pc (avr_run (loop_init avr).avr).2 :=
      fun hh => hI hh.2.2
    have hfound : (loop_body lim avr_run (loop_init avr)).2.found_infinite_loop = 0 := by
      rw [loop_body_found, if_neg hnot]
      rfl
    refine ⟨⟨(loop_body lim avr_run (loop_init avr)).1, (loop_body lim avr_run (loop_init avr)).2,
      0 + 1⟩, ?_, rfl, rfl, hdone, hfound, ?_⟩
    · simp only [run_loop, run_loop_from, hb, if_true]
    · simp only [dump_vitals_header, hfound]
      simp

theorem max_instructions_runs_exactly_witness :
    (∃ r, run_loop ⟨0, 1, 1⟩ (self_jump cpu_Running) 4 (small_avr 7 0 1) = some r ∧
      r.steps = 1 ∧ r.vars.instruction_count = 1 ∧ r.state = cpu_Done ∧
      r.vars.found_infinite_loop = 0 ∧
      vitals_line.infinite_loop_detected ∉ dump_vitals_header ⟨0, 1, 1⟩ r.vars) ∧
    (∃ r, run_loop ⟨0, 3, 1⟩ straight_line 4 (small_avr 0 0 0) = some r ∧
      r.steps = 3 ∧ r.vars.instruction_count = 3 ∧ r.state = cpu_Done ∧
      r.vars.found_infinite_loop = 0 ∧
      vitals_line.infinite_loop_detected ∉ dump_vitals_header ⟨0, 3, 1⟩ r.vars ∧
      spec_stop_reason
        (vars_after ⟨0, 3, 1⟩ straight_line (3 - 1) (loop_init (small_avr 0 0 0))).avr.pc
        r.vars.avr.pc r.vars.avr.sreg_I r.vars.avr.cycle r.vars.instruction_count ⟨0, 3, 1⟩
        (step_report ⟨0, 3, 1⟩ straight_line (3 - 1) (loop_init (small_avr 0 0 0))) =
          some stop_reason.InstructionsExhausted) :=
  ⟨(max_instructions_runs_exactly ⟨0, 1, 1⟩ (self_jump cpu_Running) (small_avr 7 0 1)
      (by decide) (by decide)).2 rfl rfl (by decide) 4 (by decide),
    ((max_instructions_runs_exactly ⟨0, 3, 1⟩ straight_line (small_avr 0 0 0)
      (by decide) (by decide)).1
      (by intro i hi; have hi3 : i < 3 := hi; interval_cases i <;> decide) 4).2 (by decide)⟩

/-- C6: with `exit_on_infinite_loop` off, `found_infinite_loop` is 0 after any
number of iterations and in whatever the loop returns, the vitals header has no
infinite-loop note, and an iteration that ends the loop does so because the
step reported done or crashed or a budget was reached, never because the PC
repeated. -/
theorem no_infinite_loop_when_off (lim : run_limits)
    (avr_run : avr_t κ → cpu_state × avr_t κ) (avr : avr_t κ)
    (h : lim.exit_on_infinite_loop = 0) :
    (∀ n, (vars_after lim avr_run n (loop_init avr)).found_infinite_loop = 0) ∧
      (∀ fuel r, run_loop lim avr_run fuel avr = some r →
        r.vars.found_infinite_loop = 0 ∧
        vitals_line.infinite_loop_detected ∉ dump_vitals_header lim r.vars) ∧
      (∀ v : loop_vars κ, ¬ infinite_loop_rule lim v.avr.pc (avr_run v.avr).2) ∧
      (∀ v : loop_vars κ, loop_breaks (loop_body lim avr_run v).1 →
        (avr_run v.avr).1 = cpu_Done ∨ (avr_run v.avr).1 = cpu_Crashed ∨
          cycles_reached lim (avr_run v.avr).2 ∨
          instructions_reached lim ((v.instruction_count + 1) % 2 ^ 64)) := by
  have hrule : ∀ v : loop_vars κ, ¬ infinite_loop_rule lim v.avr.pc (avr_run v.avr).2 :=
    fun v hr => hr.1 h
  refine ⟨?_, ?_, hrule, ?_⟩
  · intro n
    exact vars_after_found_of_off lim avr_run h n (loop_init avr)
  · intro fuel r hr
    obtain ⟨k, hk, _, _⟩ := run_loop_from_some lim avr_run fuel 0 (loop_init avr) r hr
    have hf : r.vars.found_infinite_loop = 0 := by
      rw [hk]
      exact vars_after_found_of_off lim avr_run h (k + 1) (loop_init avr)
    refine ⟨hf, ?_⟩
    simp [dump_vitals_header, hf]
  · intro v hb
    rcases (loop_breaks_iff lim avr_run v).1 hb with h1 | h1 | h1 | h1 | h1
    · exact Or.inl h1
    · exact Or.inr (Or.inl h1)
    · exact absurd h1 (hrule v)
    · exact Or.inr (Or.inr (Or.inl h1))
    · exact Or.inr (Or.inr (Or.inr h1))

theorem no_infinite_loop_when_off_witness :
    (vars_after ⟨0, 0, 0⟩ (self_jump cpu_Running) 5 (loop_init (small_avr 0 0 0))).found_infinite_loop
      = 0 :=
  (no_infinite_loop_when_off ⟨0, 0, 0⟩ (self_jump cpu_Running) (small_avr 0 0 0) rfl).1 5

end loop_claims

/-! ## Lemmas on the chunk loop -/

section hex_lemmas

variable {φ : Type} (seg : segment_offsets) (loadBase : Nat)

theorem hex_load_chunks_append (f : elf_firmware_t φ) (xs ys : List ihex_chunk_t) :
    hex_load_chunks seg loadBase f (xs ++ ys) =
      hex_load_chunks seg loadBase (hex_load_chunks seg loadBase f xs) ys := by
  unfold hex_load_chunks
  exact List.foldl_append _ _ _ _

theorem hex_load_chunks_cons (f : elf_firmware_t φ) (c : ihex_chunk_t)
    (cs : List ihex_chunk_t) :
    hex_load_chunks seg loadBase f (c :: cs) =
      hex_load_chunks seg loadBase (hex_load_chunk seg loadBase f c) cs := rfl

/-- A chunk above 1 MiB leaves the three flash fields as they are. -/
theorem hex_load_chunk_flash_kept (f : elf_firmware_t φ) (c : ihex_chunk_t)
    (h : ¬ flash_rule c) :
    (hex_load_chunk seg loadBase f c).flash = f.flash ∧
      (hex_load_chunk seg loadBase f c).flashsize = f.flashsize ∧
      (hex_load_chunk seg loadBase f c).flashbase = f.flashbase := by
  unfold hex_load_chunk
  rw [if_neg h]
  split_ifs
  · exact ⟨rfl, rfl, rfl⟩
  · exact ⟨rfl, rfl, rfl⟩

/-- Chunks above 1 MiB leave the three flash fields as they are. -/
theorem hex_load_chunks_flash_kept (cs : List ihex_chunk_t) :
    ∀ f : elf_firmware_t φ, (∀ x ∈ cs, ¬ flash_rule x) →
      (hex_load_chunks seg loadBase f cs).flash = f.flash ∧
      (hex_load_chunks seg loadBase f cs).flashsize = f.flashsize ∧
      (hex_load_chunks seg loadBase f cs).flashbase = f.flashbase := by
  induction cs with
  | nil => intro f _; exact ⟨rfl, rfl, rfl⟩
  | cons c cs ih =>
    intro f h
    rw [hex_load_chunks_cons]
    obtain ⟨h1, h2, h3⟩ := ih (hex_load_chunk seg loadBase f c)
      (fun x hx => h x (List.mem_cons_of_mem _ hx))
    obtain ⟨g1, g2, g3⟩ := hex_load_chunk_flash_kept seg loadBase f c
      (h c (List.mem_cons_self _ _))
    exact ⟨h1.trans g1, h2.trans g2, h3.trans g3⟩

/-- The flash fields after the loop are those of a chunk below 1 MiB that no
other such chunk follows. -/
theorem hex_load_chunks_last_flash (f : elf_firmware_t φ) (before after : List ihex_chunk_t)
    (c : ihex_chunk_t) (hc : flash_rule c) (hafter : ∀ x ∈ after, ¬ flash_rule x) :
    (hex_load_chunks seg loadBase f (before ++ c :: after)).flash = some c.data ∧
      (hex_load_chunks seg loadBase f (before ++ c :: after)).flashbase = c.baseaddr ∧
      (hex_load_chunks seg loadBase f (before ++ c :: after)).flashsize = c.size := by
  rw [hex_load_chunks_append, hex_load_chunks_cons]
  obtain ⟨h1, h2, h3⟩ := hex_load_chunks_flash_kept seg loadBase after
    (hex_load_chunk seg loadBase (hex_load_chunks seg loadBase f before) c) hafter
  have e : hex_load_chunk seg loadBase (hex_load_chunks seg loadBase f before) c =
      { hex_load_chunks seg loadBase f before with
        flash := some c.data, flashsize := c.size, flashbase := c.baseaddr } := by
    unfold hex_load_chunk
    rw [if_pos hc]
  rw [h1, h2, h3, e]
  exact ⟨rfl, rfl, rfl⟩

/-- A chunk list with a chunk below 1 MiB splits at the last such chunk. -/
theorem exists_last_flash_chunk (chunks : List ihex_chunk_t) :
    (∃ x ∈ chunks, flash_rule x) →
      ∃ before c after, chunks = before ++ c :: after ∧ flash_rule c ∧
        ∀ x ∈ after, ¬ flash_rule x := by
  induction chunks with
  | nil => rintro ⟨x, hx, _⟩; exact absurd hx (List.not_mem_nil x)
  | cons y ys ih =>
    intro h
    by_cases hys : ∃ x ∈ ys, flash_rule x
    · obtain ⟨before, c, after, e, hc, ha⟩ := ih hys
      exact ⟨y :: before, c, after, by rw [e]; rfl, hc, ha⟩
    · have hnone : ∀ x ∈ ys, ¬ flash_rule x := fun x hx hf => hys ⟨x, hx, hf⟩
      obtain ⟨x, hx, hf⟩ := h
      rcases List.mem_cons.1 hx with rfl | hx1
      · exact ⟨[], x, ys, rfl, hf, hnone⟩
      · exact absurd hf (hnone x hx1)

end hex_lemmas

/-! ## The claims on the chunk loop -/

section hex_claims

variable {φ : Type}

/-- C7, at the failing input: after `-ee` the load base is the EEPROM offset,
and a chunk at address 0 satisfies the second half of the EEPROM condition,
yet the loop stores it as flash and leaves the EEPROM image unset. -/
theorem ee_chunk_at_zero_loaded_as_flash :
    eeprom_rule example_segments example_segments.AVR_SEGMENT_OFFSET_EEPROM ⟨0, [1, 2, 3, 4], 4⟩ ∧
      arg_loop example_segments example_collaborators
          ["-m", "atmega88", "-f", "8000000", "-ee", "eeprom.hex"]
          (main_init example_segments ()) =
        outcome.parsed
          { main_init example_segments () with
            f := ⟨[], 0, some [1, 2, 3, 4], 4, 0, none, 0, ()⟩
            f_cpu := 8000000
            name := "atmega88".data
            loadBase := 0x810000
            calls := [reader_call.read_ihex_chunks "eeprom.hex"] } := by
  constructor
  · decide
  · rfl

/-- C8: one chunk does exactly one of three things. Below 1 MiB it sets the
flash data, size and base and leaves the rest of the descriptor, the EEPROM
image included, as it was; otherwise, under the EEPROM condition, it sets the
EEPROM data and size and leaves the rest, the flash image included, as it was;
otherwise the descriptor is unchanged. The three cases exclude one another,
and a chunk that falls in the third is skipped: the loop goes on with the
chunks that follow. -/
theorem chunk_is_flash_or_eeprom_or_dropped (seg : segment_offsets) (loadBase : Nat)
    (f : elf_firmware_t φ) (c : ihex_chunk_t) :
    ((flash_rule c ∧
        hex_load_chunk seg loadBase f c =
          { f with flash := some c.data, flashsize := c.size, flashbase := c.baseaddr } ∧
        (hex_load_chunk seg loadBase f c).eeprom = f.eeprom ∧
        (hex_load_chunk seg loadBase f c).eesize = f.eesize) ∨
      (¬ flash_rule c ∧ eeprom_rule seg loadBase c ∧
        hex_load_chunk seg loadBase f c = { f with eeprom := some c.data, eesize := c.size } ∧
        (hex_load_chunk seg loadBase f c).flash = f.flash ∧
        (hex_load_chunk seg loadBase f c).flashsize = f.flashsize ∧
        (hex_load_chunk seg loadBase f c).flashbase = f.flashbase) ∨
      (¬ flash_rule c ∧ ¬ eeprom_rule seg loadBase c ∧ hex_load_chunk seg loadBase f c = f)) ∧
    ¬ (flash_rule c ∧ (¬ flash_rule c ∧ eeprom_rule seg loadBase c)) ∧
    ¬ (flash_rule c ∧ (¬ flash_rule c ∧ ¬ eeprom_rule seg loadBase c)) ∧
    ¬ ((¬ flash_rule c ∧ eeprom_rule seg loadBase c) ∧
        (¬ flash_rule c ∧ ¬ eeprom_rule seg loadBase c)) ∧
    (¬ flash_rule c → ¬ eeprom_rule seg loadBase c → ∀ before after : List ihex_chunk_t,
      hex_load_chunks seg loadBase f (before ++ c :: after) =
        hex_load_chunks seg loadBase f (before ++ after)) := by
  refine ⟨?_, fun h => h.2.1 h.1, fun h => h.2.1 h.1, fun h => h.2.2 h.1.2, ?_⟩
  · by_cases h1 : flash_rule c
    · left
      have e : hex_load_chunk seg loadBase f c =
          { f with flash := some c.data, flashsize := c.size, flashbase := c.baseaddr } := by
        unfold hex_load_chunk
        rw [if_pos h1]
      refine ⟨h1, e, ?_, ?_⟩ <;> rw [e]
    · right
      by_cases h2 : eeprom_rule seg loadBase c
      · left
        have e : hex_load_chunk seg loadBase f c =
            { f with eeprom := some c.data, eesize := c.size } := by
          unfold hex_load_chunk
          rw [if_neg h1, if_pos h2]
        refine ⟨h1, h2, e, ?_, ?_, ?_⟩ <;> rw [e]
      · right
        refine ⟨h1, h2, ?_⟩
        unfold hex_load_chunk
        rw [if_neg h1, if_neg h2]
  · intro h1 h2 before after
    have e : ∀ g : elf_firmware_t φ, hex_load_chunk seg loadBase g c = g := by
      intro g
      unfold hex_load_chunk
      rw [if_neg h1, if_neg h2]
    rw [hex_load_chunks_append, hex_load_chunks_cons, e, ← hex_load_chunks_append]

theorem chunk_is_flash_or_eeprom_or_dropped_witness :
    hex_load_chunks example_segments 0 (elf_firmware_zero ())
        ([⟨0, [1], 1⟩] ++ ⟨0x200000, [2], 1⟩ :: [⟨0x810000, [3], 1⟩]) =
      hex_load_chunks example_segments 0 (elf_firmware_zero ())
        ([⟨0, [1], 1⟩] ++ [⟨0x810000, [3], 1⟩]) :=
  (chunk_is_flash_or_eeprom_or_dropped example_segments 0 (elf_firmware_zero ())
    ⟨0x200000, [2], 1⟩).2.2.2.2 (by decide) (by decide) [⟨0, [1], 1⟩] [⟨0x810000, [3], 1⟩]

/-- C9: if a chunk list has a chunk below 1 MiB, the list splits at the last
such chunk, and the flash data, base and size of the resulting descriptor are
those of that chunk, whatever comes before or after it; and the single chunk at
address 0 of size 4, loaded into the zeroed descriptor, gives flash base 0,
flash size 4 and no EEPROM. -/
theorem flash_is_last_flash_chunk (seg : segment_offsets) (loadBase : Nat) (zero : φ)
    (chunks : List ihex_chunk_t) (data : List Nat) :
    ((∃ x ∈ chunks, flash_rule x) →
      ∃ before c after, chunks = before ++ c :: after ∧ flash_rule c ∧
        (∀ x ∈ after, ¬ flash_rule x) ∧
        (hex_load_chunks seg loadBase (elf_firmware_zero zero) chunks).flash = some c.data ∧
        (hex_load_chunks seg loadBase (elf_firmware_zero zero) chunks).flashbase = c.baseaddr ∧
        (hex_load_chunks seg loadBase (elf_firmware_zero zero) chunks).flashsize = c.size) ∧
    hex_load_chunks seg loadBase (elf_firmware_zero zero) [⟨0x0, data, 4⟩] =
      ⟨[], 0, some data, 4, 0, none, 0, zero⟩ := by
  constructor
  · intro h
    obtain ⟨before, c, after, e, hc, ha⟩ := exists_last_flash_chunk chunks h
    refine ⟨before, c, after, e, hc, ha, ?_⟩
    rw [e]
    exact hex_load_chunks_last_flash seg loadBase _ before after c hc ha
  · have h0 : flash_rule ⟨0x0, data, 4⟩ := by
      show 0 < 1 * 1024 * 1024
      decide
    show hex_load_chunk seg loadBase (elf_firmware_zero zero) ⟨0x0, data, 4⟩ = _
    unfold hex_load_chunk
    rw [if_pos h0]
    rfl

theorem flash_is_last_flash_chunk_witness :
    (∃ x ∈ [(⟨0, [1], 1⟩ : ihex_chunk_t), ⟨0x810000, [9], 1⟩, ⟨0x7000, [2, 3], 2⟩,
        ⟨0x200000, [4], 1⟩], flash_rule x) ∧
    ∃ before c after,
      [(⟨0, [1], 1⟩ : ihex_chunk_t), ⟨0x810000, [9], 1⟩, ⟨0x7000, [2, 3], 2⟩,
        ⟨0x200000, [4], 1⟩] = before ++ c :: after ∧ flash_rule c ∧
      (∀ x ∈ after, ¬ flash_rule x) ∧
      (hex_load_chunks example_segments 0 (elf_firmware_zero ())
        [⟨0, [1], 1⟩, ⟨0x810000, [9], 1⟩, ⟨0x7000, [2, 3], 2⟩, ⟨0x200000, [4], 1⟩]).flash =
          some c.data ∧
      (hex_load_chunks example_segments 0 (elf_firmware_zero ())
        [⟨0, [1], 1⟩, ⟨0x810000, [9], 1⟩, ⟨0x7000, [2, 3], 2⟩, ⟨0x200000, [4], 1⟩]).flashbase =
          c.baseaddr ∧
      (hex_load_chunks example_segments 0 (elf_firmware_zero ())
        [⟨0, [1], 1⟩, ⟨0x810000, [9], 1⟩, ⟨0x7000, [2, 3], 2⟩, ⟨0x200000, [4], 1⟩]).flashsize =
          c.size :=
  ⟨by decide,
    (flash_is_last_flash_chunk example_segments 0 ()
      [⟨0, [1], 1⟩, ⟨0x810000, [9], 1⟩, ⟨0x7000, [2, 3], 2⟩, ⟨0x200000, [4], 1⟩] []).1
      (by decide)⟩

end hex_claims

/-! ## The claim on the command line -/

section arg_claims

variable {φ : Type}

/-- A string whose first character is not a dash is none of the options. -/
theorem ne_of_head_not_dash (a b : String) (ha : a.data.head? ≠ some '-')
    (hb : b.data.head? = some '-') : a ≠ b := by
  rintro rfl
  exact ha hb

/-- C10: when the argument loop reaches an argument that does not start with a
dash and whose suffix is `.hex` in any letter case, while `name` is empty or
`f_cpu` is 0, the loop ends in `exit(1)` with every local as it was: the
descriptor is untouched and no firmware reader has been called, whatever
arguments follow. -/
theorem hex_without_mcu_or_freq_exits (seg : segment_offsets) (ext : collaborators φ)
    (filename : String) (rest : List String) (st : main_vars φ)
    (hfile : filename.data.head? ≠ some '-') (hhex : is_hex_name filename = true)
    (hunset : st.name = [] ∨ st.f_cpu = 0) :
    arg_loop seg ext (filename :: rest) st = outcome.exited 1 st ∧
      load_firmware_arg seg ext filename st = outcome.exited 1 st := by
  have hchk : st.name.head? = none ∨ st.f_cpu = 0 := by
    rcases hunset with h | h
    · left; rw [h]; rfl
    · right; exact h
  have hload : load_firmware_arg seg ext filename st = outcome.exited 1 st := by
    unfold load_firmware_arg
    rw [if_pos hhex, if_pos hchk]
  have ne := fun (b : String) (hb : b.data.head? = some '-') =>
    ne_of_head_not_dash filename b hfile hb
  refine ⟨?_, hload⟩
  unfold arg_loop
  simp only [ne "--list-cores" rfl, ne "-h" rfl, ne "--help" rfl, ne "-m" rfl, ne "--mcu" rfl,
    ne "-f" rfl, ne "--freq" rfl, ne "-i" rfl, ne "--input" rfl, ne "-t" rfl, ne "--trace" rfl,
    ne "-ti" rfl, ne "-g" rfl, ne "--gdb" rfl, ne "-v" rfl, ne "-ee" rfl, ne "-ff" rfl,
    ne "--dump-vitals" rfl, ne "--max-cycles" rfl, ne "--max-instructions" rfl,
    ne "--exit-on-infinite" rfl, or_self, if_false]
  rw [if_pos hfile, hload]

theorem hex_without_mcu_or_freq_exits_witness :
    main_args example_segments example_collaborators () ["run_avr", "-f", "8000000", "Blink.HEX"] =
      outcome.exited 1 { main_init example_segments () with f_cpu := 8000000 } :=
  (hex_without_mcu_or_freq_exits example_segments example_collaborators "Blink.HEX" []
    { main_init example_segments () with f_cpu := 8000000 } (by decide) (by decide)
    (Or.inl rfl)).1

end arg_claims

end RunAvr
